import Mathlib

/-!
Verification of the repository's single program,
`.github/scripts/check-no-cyrillic.py`: a CI check that scans files
changed in a revision range for characters of the Cyrillic Unicode block
(U+0400 through U+04FF) and fails when it finds any.

Shallow embedding conventions:
* Python strings are `List Char` (sequences of Unicode scalar values).
* Environment variables read with `os.getenv(name, "")` are fields of an
  `Env` record; an absent variable is the empty list.
* The `git` subprocess is an oracle `List Char → Except GitError (List Char)`
  mapping the diff-range argument to either captured stdout or a
  `CalledProcessError` (raised by `subprocess.run(..., check=True)`).
* The file system is an oracle for `Path.exists`, `Path.is_dir` and
  `Path.read_text`; `read_text` returning `none` models an `OSError` on
  open/read, `some text` models the decoded text (decoding with
  `errors="ignore"` is not modelled at byte level; `text` is its result).
* An uncaught Python exception terminates the interpreter with exit
  status 1; `processExitCode` maps the error case accordingly.
-/

namespace CheckNoCyrillic

/-- Python `c.isspace()` (the set stripped by `str.strip()` with no
arguments): bidirectional classes WS, B, S and category Zs. -/
def pyIsSpace (c : Char) : Bool :=
  (0x09 ≤ c.toNat && c.toNat ≤ 0x0D) || (0x1C ≤ c.toNat && c.toNat ≤ 0x1F) ||
  c.toNat == 0x20 || c.toNat == 0x85 || c.toNat == 0xA0 || c.toNat == 0x1680 ||
  (0x2000 ≤ c.toNat && c.toNat ≤ 0x200A) || c.toNat == 0x2028 ||
  c.toNat == 0x2029 || c.toNat == 0x202F || c.toNat == 0x205F ||
  c.toNat == 0x3000

/-- Python `str.strip()`: drop leading and trailing whitespace. -/
def pyStrip (l : List Char) : List Char :=
  ((l.dropWhile pyIsSpace).reverse.dropWhile pyIsSpace).reverse

/-- Line boundaries recognised by Python `str.splitlines()`. -/
def isLineBreakChar (c : Char) : Bool :=
  c == '\n' || c == '\r' || c.toNat == 0x0B || c.toNat == 0x0C ||
  c.toNat == 0x1C || c.toNat == 0x1D || c.toNat == 0x1E || c.toNat == 0x85 ||
  c.toNat == 0x2028 || c.toNat == 0x2029

/-- Worker for `splitlines`; `acc` holds the current line reversed. -/
def splitlinesAux : List Char → List Char → List (List Char)
  | [], acc => if acc.isEmpty then [] else [acc.reverse]
  | '\r' :: '\n' :: rest, acc => acc.reverse :: splitlinesAux rest []
  | c :: rest, acc =>
    if isLineBreakChar c then acc.reverse :: splitlinesAux rest []
    else splitlinesAux rest (c :: acc)

/-- Python `str.splitlines()`: split on line boundaries (treating `\r\n`
as one boundary), keeping no end-of-line characters and producing no
trailing empty line. -/
def splitlines (s : List Char) : List (List Char) :=
  splitlinesAux s []

/-- `CYRILLIC_PATTERN = re.compile(r"[\u0400-\u04FF]")`: the character
class test of the regex, on one character. -/
def isCyrillicChar (c : Char) : Bool :=
  0x0400 ≤ c.toNat && c.toNat ≤ 0x04FF

/-- `CYRILLIC_PATTERN.search(line)` is truthy iff some character of the
line is in the class. -/
def containsCyrillic (line : List Char) : Bool :=
  line.any isCyrillicChar

/-- `TEXT_EXTENSIONS`, the fixed allow-list of `check-no-cyrillic.py`. -/
def TEXT_EXTENSIONS : List (List Char) :=
  [".java".data, ".kt".data, ".kts".data, ".groovy".data, ".xml".data,
   ".yml".data, ".yaml".data, ".md".data, ".txt".data, ".properties".data,
   ".json".data, ".ts".data, ".tsx".data, ".js".data, ".jsx".data,
   ".css".data, ".scss".data, ".html".data, ".sql".data, ".sh".data,
   ".py".data]

/-- Worker for `pathName`: the characters after the last `/`. -/
def lastComponentAux : List Char → List Char → List Char
  | [], acc => acc.reverse
  | '/' :: rest, _ => lastComponentAux rest []
  | c :: rest, acc => lastComponentAux rest (c :: acc)

/-- Trailing slashes, removed by `pathlib` path normalisation. -/
def dropTrailingSlashes (p : List Char) : List Char :=
  (p.reverse.dropWhile (· == '/')).reverse

/-- `pathlib.PurePath.name`: the final path component. -/
def pathName (p : List Char) : List Char :=
  lastComponentAux (dropTrailingSlashes p) []

/-- Index of the last `.` in a name (`str.rfind`), `none` when absent. -/
def lastDotIdx : List Char → Option Nat
  | [] => none
  | c :: rest =>
    match lastDotIdx rest with
    | some i => some (i + 1)
    | none => if c == '.' then some 0 else none

/-- `pathlib.PurePath.suffix`: `name[i:]` for the last dot index `i`
when `0 < i < len(name) - 1`, else the empty string. -/
def pathSuffix (p : List Char) : List Char :=
  let name := pathName p
  match lastDotIdx name with
  | none => []
  | some i => if 0 < i ∧ i + 1 < name.length then name.drop i else []

/-- `str.lower()` restricted to ASCII letters; the allow-list is pure
ASCII, so this is the relevant fragment of Python's Unicode lowering. -/
def lowerAll (l : List Char) : List Char :=
  l.map Char.toLower

/-- `str(Path)` round-trips to the raw relative path for the clean
relative names `git diff --name-only` emits; a violation record keeps the
three pieces interpolated into `f"\x7bpath\x7d:\x7bindex\x7d: \x7bpreview\x7d"`. -/
structure Violation where
  path : List Char
  lineNumber : Nat
  preview : List Char
  deriving DecidableEq

/-- The preview computation of `scan_file` (lines 93-95): strip the
line; if the result is longer than 180 characters, keep the first 177
and append `...`. -/
def makePreview (line : List Char) : List Char :=
  let preview := pyStrip line
  if 180 < preview.length then preview.take 177 ++ "...".data
  else preview

/-- The scanning loop of `scan_file` (lines 91-96), with `n` the
1-based number of the first line of the remaining list
(`enumerate(lines, start=1)`). -/
def scanLinesFrom (path : List Char) (n : Nat) : List (List Char) → List Violation
  | [] => []
  | line :: rest =>
    if containsCyrillic line then
      ⟨path, n, makePreview line⟩ :: scanLinesFrom path (n + 1) rest
    else
      scanLinesFrom path (n + 1) rest

/-- All violation records of one decoded, line-split file. -/
def scanLines (path : List Char) (lines : List (List Char)) : List Violation :=
  scanLinesFrom path 1 lines

/-- The f-string of line 96: `path:index: preview`. -/
def formatViolation (v : Violation) : List Char :=
  v.path ++ ':' :: (Nat.repr v.lineNumber).data ++ ':' :: ' ' :: v.preview

/-- `scan_file`: `none` models `OSError` from `path.read_text`
(caught, yielding no violations); `some text` models the decoded text,
which is split into lines and scanned. -/
def scan_file (path : List Char) (readResult : Option (List Char)) :
    List (List Char) :=
  match readResult with
  | none => []
  | some text => (scanLines path (splitlines text)).map formatViolation

/-- `subprocess.CalledProcessError` raised by `check=True`. -/
structure GitError where
  returncode : Int
  deriving DecidableEq

/-- `run_git_command`: returns `result.stdout.strip()` on success and
lets `CalledProcessError` propagate on a non-zero exit. -/
def run_git_command (result : Except GitError (List Char)) :
    Except GitError (List Char) :=
  match result with
  | .error e => .error e
  | .ok out => .ok (pyStrip out)

/-- The file-system oracle backing `Path.exists` and `Path.is_dir`. -/
structure FileSystem where
  existsOnDisk : List Char → Bool
  isDir : List Char → Bool

/-- The filtering loop of `list_changed_files` (lines 71-81): skip empty
lines, skip paths that do not exist or are directories, keep paths whose
lowercased suffix is in the allow-list. -/
def filterChangedAux (fs : FileSystem) : List (List Char) → List (List Char)
  | [] => []
  | raw :: rest =>
    if raw.isEmpty then filterChangedAux fs rest
    else if !fs.existsOnDisk raw || fs.isDir raw then filterChangedAux fs rest
    else if TEXT_EXTENSIONS.contains (lowerAll (pathSuffix raw)) then
      raw :: filterChangedAux fs rest
    else filterChangedAux fs rest

/-- `list_changed_files`: run `git diff --name-only <range>` (the
outcome is the `gitResult` argument), return `[]` on empty output, else
filter the output lines. A `CalledProcessError` propagates. -/
def list_changed_files (fs : FileSystem)
    (gitResult : Except GitError (List Char)) :
    Except GitError (List (List Char)) :=
  match run_git_command gitResult with
  | .error e => .error e
  | .ok output =>
    if output.isEmpty then .ok []
    else .ok (filterChangedAux fs (splitlines output))

/-- The environment values `resolve_diff_range` reads; `os.getenv`
defaults make an absent variable the empty string. -/
structure Env where
  eventName : List Char
  baseRef : List Char
  eventBefore : List Char
  sha : List Char

/-- The all-zero null-commit sentinel compared against
`GITHUB_EVENT_BEFORE`. -/
def nullSha : List Char :=
  "0000000000000000000000000000000000000000".data

/-- `resolve_diff_range` (lines 48-63). -/
def resolve_diff_range (env : Env) : List Char :=
  if env.eventName = "pull_request".data ∧ env.baseRef ≠ [] then
    "origin/".data ++ env.baseRef ++ "...HEAD".data
  else if env.eventBefore ≠ [] ∧ env.eventBefore ≠ nullSha ∧ env.sha ≠ [] then
    env.eventBefore ++ "...".data ++ env.sha
  else
    "HEAD~1...HEAD".data

/-- One invocation's external world: environment, git oracle (keyed by
the diff-range argument), file system, and file contents. -/
structure World where
  env : Env
  git : List Char → Except GitError (List Char)
  fs : FileSystem
  readFile : List Char → Option (List Char)

/-- The changed-file list `main` computes (lines 102-103). -/
def changedFilesOf (w : World) : Except GitError (List (List Char)) :=
  list_changed_files w.fs (w.git (resolve_diff_range w.env))

/-- The aggregation loop of `main` (lines 109-111): violations of all
changed files, in file order then line order. -/
def allViolations (w : World) (changed : List (List Char)) :
    List (List Char) :=
  changed.flatMap (fun p => scan_file p (w.readFile p))

def msgNoFiles : List Char :=
  "No changed text files to scan.".data

def msgClean : List Char :=
  "No Cyrillic characters detected in changed files.".data

def msgHeader : List Char :=
  "Cyrillic characters detected in changed files:".data

def msgFooter : List Char :=
  "Use English for PR descriptions, code comments, logs, and user-facing text in changed files.".data

/-- `main` (lines 101-121): the returned pair is the exit status and the
lines printed to stdout; `.error` is a propagating `CalledProcessError`. -/
def mainRun (w : World) : Except GitError (Nat × List (List Char)) :=
  match changedFilesOf w with
  | .error e => .error e
  | .ok changed =>
    if changed.isEmpty then .ok (0, [msgNoFiles])
    else
      let all := allViolations w changed
      if all.isEmpty then .ok (0, [msgClean])
      else .ok (1, msgHeader :: all.map (fun s => '-' :: ' ' :: s) ++ [msgFooter])

/-- The interpreter's exit status: `sys.exit(main())` on success, 1 for
an uncaught exception. -/
def processExitCode (w : World) : Nat :=
  match mainRun w with
  | .ok r => r.1
  | .error _ => 1

/-- The spec's description of the Change Lister filter, as a single
predicate: a diff output line survives iff it is non-empty, exists on
disk, is not a directory, and its lowercased suffix is allow-listed.
Compared against the code's `filterChangedAux` loop below. -/
def changedPred (fs : FileSystem) (raw : List Char) : Bool :=
  !raw.isEmpty && !(!fs.existsOnDisk raw || fs.isDir raw) &&
  TEXT_EXTENSIONS.contains (lowerAll (pathSuffix raw))

/-! ### Concrete inputs used to instantiate the theorems -/

def pathF : List Char := "f.py".data

def lines1 : List (List Char) := ["ab".data, "aд".data]

/-- Line 1 holds U+0500 (Cyrillic Supplement, outside the pattern's
class); line 2 holds U+0434 (inside it). -/
def lines2 : List (List Char) := ["Ԁz".data, "yд".data]

/-- 181 characters, of which 180 are trailing spaces. -/
def longSpaceLine : List Char := 'д' :: List.replicate 180 ' '

/-- 181 Cyrillic characters, no whitespace. -/
def longCyrLine : List Char := List.replicate 181 'д'

/-- Exactly 180 Cyrillic characters, no whitespace. -/
def line180 : List Char := List.replicate 180 'д'

def envPR : Env := ⟨"pull_request".data, "main".data, [], []⟩

def emptyEnv : Env := ⟨[], [], [], []⟩

def fs0 : FileSystem :=
  ⟨fun p => p == "a.py".data || p == "b.bin".data || p == "d.md".data,
   fun p => p == "d.md".data⟩

def out0 : List Char := "a.py\nb.bin\nd.md\ngone.txt".data

def wEmpty : World :=
  ⟨emptyEnv, fun _ => .ok [], ⟨fun _ => false, fun _ => false⟩, fun _ => none⟩

def wBad : World :=
  ⟨emptyEnv, fun _ => .ok "f.py".data,
   ⟨fun p => p == "f.py".data, fun _ => false⟩,
   fun p => if p == "f.py".data then some "д".data else none⟩

def pathA : List Char := "a.md".data

def pathB : List Char := "b.md".data

def wUnreadable : World :=
  ⟨emptyEnv, fun _ => .ok "a.md\nb.md".data,
   ⟨fun p => p == pathA || p == pathB, fun _ => false⟩,
   fun p => if p == pathB then some "д".data else none⟩

def wGitFail : World :=
  ⟨emptyEnv, fun _ => .error ⟨128⟩, ⟨fun _ => false, fun _ => false⟩,
   fun _ => none⟩

/-! ### Helper lemmas -/

theorem splitlines_nil : splitlines [] = [] := by
  rfl

theorem mem_scanLinesFrom (path : List Char) (v : Violation) :
    ∀ (lines : List (List Char)) (n : Nat),
    v ∈ scanLinesFrom path n lines ↔
      ∃ i l, lines[i]? = some l ∧ containsCyrillic l = true ∧
        v = ⟨path, n + i, makePreview l⟩ := by
  intro lines
  induction lines with
  | nil => intro n; simp [scanLinesFrom]
  | cons line rest ih =>
    intro n
    by_cases hc : containsCyrillic line = true
    · rw [scanLinesFrom, if_pos hc]
      simp only [List.mem_cons, ih (n + 1)]
      constructor
      · rintro (rfl | ⟨i, l, hget, hcy, rfl⟩)
        · exact ⟨0, line, by simp, hc, by simp⟩
        · refine ⟨i + 1, l, by simpa using hget, hcy, ?_⟩
          have harith : n + 1 + i = n + (i + 1) := by omega
          rw [harith]
      · rintro ⟨i, l, hget, hcy, rfl⟩
        cases i with
        | zero =>
          simp only [List.getElem?_cons_zero, Option.some.injEq] at hget
          subst hget
          exact Or.inl (by simp)
        | succ j =>
          simp only [List.getElem?_cons_succ] at hget
          refine Or.inr ⟨j, l, hget, hcy, ?_⟩
          have harith : n + (j + 1) = n + 1 + j := by omega
          rw [harith]
    · rw [scanLinesFrom, if_neg hc]
      rw [ih (n + 1)]
      constructor
      · rintro ⟨i, l, hget, hcy, rfl⟩
        refine ⟨i + 1, l, by simpa using hget, hcy, ?_⟩
        have harith : n + 1 + i = n + (i + 1) := by omega
        rw [harith]
      · rintro ⟨i, l, hget, hcy, rfl⟩
        cases i with
        | zero =>
          simp only [List.getElem?_cons_zero, Option.some.injEq] at hget
          subst hget
          exact absurd hcy hc
        | succ j =>
          simp only [List.getElem?_cons_succ] at hget
          refine ⟨j, l, hget, hcy, ?_⟩
          have harith : n + (j + 1) = n + 1 + j := by omega
          rw [harith]

theorem scanLines_mem (path : List Char) (v : Violation)
    (lines : List (List Char)) :
    v ∈ scanLines path lines ↔
      ∃ i l, lines[i]? = some l ∧ containsCyrillic l = true ∧
        v = ⟨path, 1 + i, makePreview l⟩ :=
  mem_scanLinesFrom path v lines 1

theorem violation_at_iff (path : List Char) (lines : List (List Char))
    (i : Nat) (h : i < lines.length) :
    (∃ v ∈ scanLines path lines, v.lineNumber = i + 1) ↔
      containsCyrillic (lines.get ⟨i, h⟩) = true := by
  constructor
  · rintro ⟨v, hv, hnum⟩
    obtain ⟨j, l, hget, hcy, rfl⟩ := (scanLines_mem path v lines).mp hv
    simp only at hnum
    have hj : j = i := by omega
    subst hj
    rw [List.getElem?_eq_getElem h] at hget
    have : l = lines.get ⟨j, h⟩ := by
      simpa [List.get_eq_getElem] using hget.symm
    rwa [this] at hcy
  · intro hcy
    refine ⟨⟨path, 1 + i, makePreview (lines.get ⟨i, h⟩)⟩, ?_, by simp; omega⟩
    rw [scanLines_mem]
    exact ⟨i, lines.get ⟨i, h⟩, by simp [List.getElem?_eq_getElem h], hcy, rfl⟩

theorem containsCyrillic_iff (l : List Char) :
    containsCyrillic l = true ↔
      ∃ c ∈ l, 0x0400 ≤ c.toNat ∧ c.toNat ≤ 0x04FF := by
  simp [containsCyrillic, isCyrillicChar, List.any_eq_true]

theorem makePreview_length (line : List Char) :
    (makePreview line).length ≤ 180 := by
  unfold makePreview
  by_cases h : 180 < (pyStrip line).length
  · rw [if_pos h]
    rw [List.length_append, List.length_take]
    have h3 : ("...".data).length = 3 := rfl
    omega
  · rw [if_neg h]
    omega

theorem makePreview_of_short (line : List Char)
    (h : (pyStrip line).length ≤ 180) :
    makePreview line = pyStrip line := by
  unfold makePreview
  rw [if_neg (by omega)]

theorem makePreview_of_long (line : List Char)
    (h : 180 < (pyStrip line).length) :
    makePreview line = (pyStrip line).take 177 ++ "...".data := by
  unfold makePreview
  rw [if_pos h]

theorem drop_all_append {α : Type} (l₁ l₂ : List α) (n : Nat)
    (h : l₁.length = n) : (l₁ ++ l₂).drop n = l₂ := by
  subst h
  exact List.drop_left l₁ l₂

theorem isEmpty_false_of_ne {α : Type} {l : List α} (h : l ≠ []) :
    l.isEmpty = false := by
  cases l with
  | nil => exact absurd rfl h
  | cons a as => rfl

theorem filterChangedAux_eq_filter (fs : FileSystem)
    (lines : List (List Char)) :
    filterChangedAux fs lines = lines.filter (changedPred fs) := by
  induction lines with
  | nil => rfl
  | cons raw rest ih =>
    simp only [filterChangedAux, List.filter_cons]
    by_cases h1 : raw.isEmpty = true
    · simp [h1, changedPred, ih]
    · by_cases h2 : (!fs.existsOnDisk raw || fs.isDir raw) = true
      · simp [h1, h2, changedPred, ih]
      · by_cases h3 :
          TEXT_EXTENSIONS.contains (lowerAll (pathSuffix raw)) = true
        · simp [h1, h2, h3, changedPred, ih]
        · simp [h1, h2, h3, changedPred, ih]

theorem list_changed_files_ok (fs : FileSystem) (out : List Char) :
    list_changed_files fs (.ok out) =
      .ok ((splitlines (pyStrip out)).filter (changedPred fs)) := by
  cases h : (pyStrip out).isEmpty with
  | true =>
    have hnil : pyStrip out = [] := by
      cases hs : pyStrip out with
      | nil => rfl
      | cons a as => rw [hs] at h; exact absurd h (by simp)
    simp [list_changed_files, run_git_command, h, hnil, splitlines_nil]
  | false =>
    simp [list_changed_files, run_git_command, h, filterChangedAux_eq_filter]

theorem changed_mem_pred (fs : FileSystem) (out : List Char)
    (changed : List (List Char))
    (h : list_changed_files fs (.ok out) = .ok changed)
    (p : List Char) (hp : p ∈ changed) : changedPred fs p = true := by
  rw [list_changed_files_ok] at h
  simp only [Except.ok.injEq] at h
  subst h
  exact (List.mem_filter.mp hp).2

theorem changedFilesOf_pred (w : World) (changed : List (List Char))
    (h : changedFilesOf w = .ok changed) (p : List Char) (hp : p ∈ changed) :
    changedPred w.fs p = true := by
  unfold changedFilesOf at h
  cases hg : w.git (resolve_diff_range w.env) with
  | error e =>
    rw [hg] at h
    simp [list_changed_files, run_git_command] at h
  | ok out =>
    rw [hg] at h
    exact changed_mem_pred w.fs out changed h p hp

theorem allViolations_nil (w : World) : allViolations w [] = [] := rfl

theorem mainRun_ok (w : World) (changed : List (List Char))
    (h : changedFilesOf w = .ok changed) :
    mainRun w =
      if changed.isEmpty then .ok (0, [msgNoFiles])
      else if (allViolations w changed).isEmpty then .ok (0, [msgClean])
      else .ok (1, msgHeader ::
        (allViolations w changed).map (fun s => '-' :: ' ' :: s) ++
          [msgFooter]) := by
  unfold mainRun
  rw [h]

theorem mainRun_error (w : World) (e : GitError)
    (h : changedFilesOf w = .error e) : mainRun w = .error e := by
  unfold mainRun
  rw [h]

theorem changedPred_parts {fs : FileSystem} {p : List Char}
    (h : changedPred fs p = true) :
    p.isEmpty = false ∧ fs.existsOnDisk p = true ∧ fs.isDir p = false ∧
    TEXT_EXTENSIONS.contains (lowerAll (pathSuffix p)) = true := by
  unfold changedPred at h
  cases he : p.isEmpty <;> cases hex : fs.existsOnDisk p <;>
    cases hdir : fs.isDir p <;> rw [he, hex, hdir] at h <;> simp_all

/-! ### Claim theorems -/

/-- C1: for every file the Line Scanner processes, a violation record
for line `k` (1-based over the split lines) exists iff line `k` holds a
character of the disallowed range; any such record carries line number
`k`, the file's path and the trimmed/truncated preview of line `k`; a
file with no such character yields zero violations. -/
theorem scan_file_line_spec (path : List Char) (lines : List (List Char))
    (k : Nat) (hk : 1 ≤ k) (h : k - 1 < lines.length) :
    ((∃ v ∈ scanLines path lines, v.lineNumber = k) ↔
      containsCyrillic (lines.get ⟨k - 1, h⟩) = true) ∧
    (∀ v ∈ scanLines path lines, v.lineNumber = k →
      v.path = path ∧ v.preview = makePreview (lines.get ⟨k - 1, h⟩)) ∧
    ((∀ l ∈ lines, containsCyrillic l = false) → scanLines path lines = []) := by
  refine ⟨?_, ?_, ?_⟩
  · have hkk : k - 1 + 1 = k := by omega
    have hiff := violation_at_iff path lines (k - 1) h
    rwa [hkk] at hiff
  · intro v hv hnum
    obtain ⟨j, l, hget, hcy, rfl⟩ := (scanLines_mem path v lines).mp hv
    have hjn : 1 + j = k := hnum
    have hj : j = k - 1 := by omega
    subst hj
    rw [List.getElem?_eq_getElem h] at hget
    have hl : l = lines.get ⟨k - 1, h⟩ := by
      simpa [List.get_eq_getElem] using hget.symm
    subst hl
    exact ⟨rfl, rfl⟩
  · intro hclean
    rw [List.eq_nil_iff_forall_not_mem]
    intro v hv
    obtain ⟨j, l, hget, hcy, rfl⟩ := (scanLines_mem path v lines).mp hv
    obtain ⟨hlt, hEq⟩ := List.getElem?_eq_some.mp hget
    have hmem : l ∈ lines := by
      rw [← hEq]
      exact List.getElem_mem hlt
    rw [hclean l hmem] at hcy
    exact Bool.false_ne_true hcy

theorem scan_file_line_spec_witness :
    ∃ v ∈ scanLines pathF lines1, v.lineNumber = 2 :=
  ((scan_file_line_spec pathF lines1 2 (by decide) (by decide)).1).mpr
    (by decide)

/-- C9: a violation is produced for a line iff some character of the
line lies in the inclusive code-point range U+0400 through U+04FF; a
line all of whose characters lie outside that range (for example U+0500
or ASCII) is never flagged. -/
theorem cyrillic_range_spec (path : List Char) (lines : List (List Char))
    (i : Nat) (h : i < lines.length) :
    ((∃ v ∈ scanLines path lines, v.lineNumber = i + 1) ↔
      ∃ c ∈ lines.get ⟨i, h⟩, 0x0400 ≤ c.toNat ∧ c.toNat ≤ 0x04FF) ∧
    ((∀ c ∈ lines.get ⟨i, h⟩, c.toNat < 0x0400 ∨ 0x04FF < c.toNat) →
      ¬∃ v ∈ scanLines path lines, v.lineNumber = i + 1) := by
  constructor
  · rw [violation_at_iff path lines i h, containsCyrillic_iff]
  · intro hout hex
    rw [violation_at_iff path lines i h, containsCyrillic_iff] at hex
    obtain ⟨c, hc, h1, h2⟩ := hex
    rcases hout c hc with h3 | h3 <;> omega

theorem cyrillic_range_spec_witness :
    (∃ v ∈ scanLines pathF lines2, v.lineNumber = 1 + 1) ∧
    ¬∃ v ∈ scanLines pathF lines2, v.lineNumber = 0 + 1 :=
  ⟨((cyrillic_range_spec pathF lines2 1 (by decide)).1).mpr (by decide),
   (cyrillic_range_spec pathF lines2 0 (by decide)).2 (by decide)⟩

set_option maxRecDepth 8000 in
/-- C2 is false as stated: `longSpaceLine` is 181 characters long
(longer than 180) and contains a disallowed character, yet its violation
preview is the 1-character trimmed text, not a 180-character truncation,
because the code trims *before* measuring against the 180 bound. -/
theorem preview_truncation_counterexample :
    longSpaceLine.length = 181 ∧ containsCyrillic longSpaceLine = true ∧
    scanLines pathF [longSpaceLine] = [⟨pathF, 1, ['д']⟩] ∧
    (['д'] : List Char).length ≠ 180 :=
  ⟨by decide, by decide, by decide, by decide⟩

/-- C2 (amended): for every line whose *whitespace-trimmed* text is
longer than 180 characters and that contains a disallowed character, the
violation's preview is exactly 180 characters and its last three
characters are `...`. -/
theorem preview_truncation_spec (path : List Char) (lines : List (List Char))
    (i : Nat) (h : i < lines.length)
    (hc : containsCyrillic (lines.get ⟨i, h⟩) = true)
    (hlen : 180 < (pyStrip (lines.get ⟨i, h⟩)).length) :
    ∃ v ∈ scanLines path lines, v.lineNumber = i + 1 ∧
      v.preview.length = 180 ∧ v.preview.drop 177 = "...".data := by
  refine ⟨⟨path, 1 + i, makePreview (lines.get ⟨i, h⟩)⟩, ?_, ?_, ?_, ?_⟩
  · rw [scanLines_mem]
    exact ⟨i, lines.get ⟨i, h⟩, by simp [List.getElem?_eq_getElem h], hc, rfl⟩
  · show 1 + i = i + 1
    omega
  · show (makePreview (lines.get ⟨i, h⟩)).length = 180
    rw [makePreview_of_long _ hlen, List.length_append, List.length_take]
    have h3 : ("...".data).length = 3 := rfl
    omega
  · show (makePreview (lines.get ⟨i, h⟩)).drop 177 = "...".data
    rw [makePreview_of_long _ hlen]
    have htk : ((pyStrip (lines.get ⟨i, h⟩)).take 177).length = 177 := by
      rw [List.length_take]
      omega
    exact drop_all_append _ _ 177 htk

set_option maxRecDepth 8000 in
theorem preview_truncation_spec_witness :
    ∃ v ∈ scanLines pathF [longCyrLine], v.lineNumber = 0 + 1 ∧
      v.preview.length = 180 ∧ v.preview.drop 177 = "...".data :=
  preview_truncation_spec pathF [longCyrLine] 0 (by decide) (by decide)
    (by decide)

/-- C10: every preview the Line Scanner produces is at most 180
characters long; the trimmed line is kept unchanged whenever its length
is at most 180 (in particular at exactly 180, with no ellipsis), and a
strictly longer trimmed line becomes its first 177 characters followed
by `...`. -/
theorem preview_bound_spec (path line : List Char)
    (lines : List (List Char)) :
    (∀ v ∈ scanLines path lines, v.preview.length ≤ 180) ∧
    ((pyStrip line).length ≤ 180 → makePreview line = pyStrip line) ∧
    (180 < (pyStrip line).length →
      makePreview line = (pyStrip line).take 177 ++ "...".data) := by
  refine ⟨?_, makePreview_of_short line, makePreview_of_long line⟩
  intro v hv
  obtain ⟨j, l, hget, hcy, rfl⟩ := (scanLines_mem path v lines).mp hv
  exact makePreview_length l

set_option maxRecDepth 8000 in
theorem preview_bound_spec_witness :
    (∀ v ∈ scanLines pathF lines1, v.preview.length ≤ 180) ∧
    makePreview line180 = pyStrip line180 :=
  ⟨(preview_bound_spec pathF line180 lines1).1,
   (preview_bound_spec pathF line180 lines1).2.1 (by decide)⟩

/-- C4: for every environment configuration the Range Resolver returns
a non-empty range, following the priority: pull-request event with a
non-empty base branch gives `origin/<base>...HEAD`; else a non-empty
"before" reference different from the null sentinel together with a
non-empty current revision gives `<before>...<current>`; else
`HEAD~1...HEAD`. Totality of the function models that no error is
raised for absent environment values. -/
theorem resolve_diff_range_spec (env : Env) :
    resolve_diff_range env ≠ [] ∧
    (env.eventName = "pull_request".data → env.baseRef ≠ [] →
      resolve_diff_range env =
        "origin/".data ++ env.baseRef ++ "...HEAD".data) ∧
    (¬(env.eventName = "pull_request".data ∧ env.baseRef ≠ []) →
      env.eventBefore ≠ [] → env.eventBefore ≠ nullSha → env.sha ≠ [] →
      resolve_diff_range env = env.eventBefore ++ "...".data ++ env.sha) ∧
    (¬(env.eventName = "pull_request".data ∧ env.baseRef ≠ []) →
      ¬(env.eventBefore ≠ [] ∧ env.eventBefore ≠ nullSha ∧ env.sha ≠ []) →
      resolve_diff_range env = "HEAD~1...HEAD".data) := by
  by_cases h1 : env.eventName = "pull_request".data ∧ env.baseRef ≠ []
  · have heq : resolve_diff_range env =
        "origin/".data ++ env.baseRef ++ "...HEAD".data := by
      unfold resolve_diff_range
      rw [if_pos h1]
    refine ⟨?_, fun _ _ => heq, fun hn => absurd h1 hn, fun hn => absurd h1 hn⟩
    rw [heq]
    intro hc
    have hlen : (("origin/".data ++ env.baseRef) ++ "...HEAD".data).length = 0 := by
      rw [hc]
      rfl
    rw [List.length_append, List.length_append] at hlen
    have h7 : ("origin/".data).length = 7 := rfl
    rw [h7] at hlen
    omega
  · by_cases h2 : env.eventBefore ≠ [] ∧ env.eventBefore ≠ nullSha ∧
        env.sha ≠ []
    · have heq : resolve_diff_range env =
          env.eventBefore ++ "...".data ++ env.sha := by
        unfold resolve_diff_range
        rw [if_neg h1, if_pos h2]
      refine ⟨?_, fun ha hb => absurd ⟨ha, hb⟩ h1, fun _ _ _ _ => heq,
        fun _ hn2 => absurd h2 hn2⟩
      rw [heq]
      intro hc
      have hlen : ((env.eventBefore ++ "...".data) ++ env.sha).length = 0 := by
        rw [hc]
        rfl
      rw [List.length_append, List.length_append] at hlen
      have hb : 0 < env.eventBefore.length := List.length_pos.mpr h2.1
      omega
    · have heq : resolve_diff_range env = "HEAD~1...HEAD".data := by
        unfold resolve_diff_range
        rw [if_neg h1, if_neg h2]
      refine ⟨?_, fun ha hb => absurd ⟨ha, hb⟩ h1,
        fun _ hb hn hs => absurd ⟨hb, hn, hs⟩ h2, fun _ _ => heq⟩
      rw [heq]
      decide

theorem resolve_diff_range_spec_witness :
    resolve_diff_range envPR = "origin/".data ++ "main".data ++ "...HEAD".data :=
  (resolve_diff_range_spec envPR).2.1 rfl (by decide)

/-- C5: the Change Lister returns exactly the non-empty diff output
lines that exist on disk, are not directories and whose lowercased
suffix is in the allow-list, in diff output order (a `filter` of the
split output); empty diff output yields `[]`; every returned path
passed every check; and every violation the whole run produces comes
from a path that passed the allow-list check, so a file with a
non-allow-listed extension is never scanned. -/
theorem list_changed_files_spec (fs : FileSystem) (out : List Char) :
    list_changed_files fs (.ok out) =
      .ok ((splitlines (pyStrip out)).filter (changedPred fs)) ∧
    ((pyStrip out).isEmpty = true → list_changed_files fs (.ok out) = .ok []) ∧
    (∀ changed, list_changed_files fs (.ok out) = .ok changed →
      ∀ p ∈ changed, fs.existsOnDisk p = true ∧ fs.isDir p = false ∧
        TEXT_EXTENSIONS.contains (lowerAll (pathSuffix p)) = true) ∧
    (∀ w : World, ∀ changed, changedFilesOf w = .ok changed →
      ∀ s ∈ allViolations w changed, ∃ p ∈ changed,
        TEXT_EXTENSIONS.contains (lowerAll (pathSuffix p)) = true ∧
        s ∈ scan_file p (w.readFile p)) := by
  refine ⟨list_changed_files_ok fs out, ?_, ?_, ?_⟩
  · intro h
    simp [list_changed_files, run_git_command, h]
  · intro changed h p hp
    have hparts := changedPred_parts (changed_mem_pred fs out changed h p hp)
    exact ⟨hparts.2.1, hparts.2.2.1, hparts.2.2.2⟩
  · intro w changed h s hs
    obtain ⟨p, hp, hsp⟩ := List.mem_flatMap.mp hs
    have hparts := changedPred_parts (changedFilesOf_pred w changed h p hp)
    exact ⟨p, hp, hparts.2.2.2, hsp⟩

theorem list_changed_files_spec_witness :
    list_changed_files fs0 (.ok out0) =
      .ok ((splitlines (pyStrip out0)).filter (changedPred fs0)) ∧
    (fs0.existsOnDisk "a.py".data = true ∧ fs0.isDir "a.py".data = false ∧
      TEXT_EXTENSIONS.contains (lowerAll (pathSuffix "a.py".data)) = true) :=
  ⟨(list_changed_files_spec fs0 out0).1,
   (list_changed_files_spec fs0 out0).2.2.1
     ((splitlines (pyStrip out0)).filter (changedPred fs0))
     (list_changed_files_spec fs0 out0).1 "a.py".data (by decide)⟩

/-- C3: on a successful git invocation the run reaches exactly one of
three terminal outcomes: empty changed-file list prints the
nothing-to-scan message and exits 0; non-empty list with no violations
prints the clean message and exits 0; at least one violation exits 1.
The exit status is 1 iff at least one violation exists. -/
theorem main_outcomes_spec (w : World) (changed : List (List Char))
    (h : changedFilesOf w = .ok changed) :
    (changed = [] → mainRun w = .ok (0, [msgNoFiles])) ∧
    (changed ≠ [] → allViolations w changed = [] →
      mainRun w = .ok (0, [msgClean])) ∧
    (allViolations w changed ≠ [] → ∃ out, mainRun w = .ok (1, out)) ∧
    (∀ code out, mainRun w = .ok (code, out) →
      (code = 1 ↔ allViolations w changed ≠ [])) := by
  have hm := mainRun_ok w changed h
  refine ⟨?_, ?_, ?_, ?_⟩
  · intro hnil
    subst hnil
    simpa using hm
  · intro hne hv
    rw [isEmpty_false_of_ne hne, hv] at hm
    simpa using hm
  · intro hv
    have hne : changed ≠ [] := by
      intro hnil
      subst hnil
      exact hv (allViolations_nil w)
    rw [isEmpty_false_of_ne hne, isEmpty_false_of_ne hv] at hm
    exact ⟨_, by simpa using hm⟩
  · intro code out hmo
    rw [hm] at hmo
    by_cases hne : changed = []
    · subst hne
      simp only [List.isEmpty_nil, if_true] at hmo
      simp only [Except.ok.injEq, Prod.mk.injEq] at hmo
      obtain ⟨hcode, -⟩ := hmo
      subst hcode
      simp [allViolations_nil]
    · rw [isEmpty_false_of_ne hne] at hmo
      by_cases hv : allViolations w changed = []
      · rw [hv] at hmo
        simp only [List.isEmpty_nil, if_true, Bool.false_eq_true, if_false,
          Except.ok.injEq, Prod.mk.injEq] at hmo
        obtain ⟨hcode, -⟩ := hmo
        subst hcode
        simp [hv]
      · rw [isEmpty_false_of_ne hv] at hmo
        simp only [Bool.false_eq_true, if_false, Except.ok.injEq,
          Prod.mk.injEq] at hmo
        obtain ⟨hcode, -⟩ := hmo
        subst hcode
        simp [hv]

theorem main_outcomes_spec_witness :
    mainRun wEmpty = .ok (0, [msgNoFiles]) :=
  (main_outcomes_spec wEmpty [] rfl).1 rfl

/-- C6 is false as stated: at this concrete input the single violation
is printed as `- f.py:1: д`, i.e. with a two-character `- ` bullet in
front of the `<path>:<line>: <preview>` text the claim prescribes. -/
theorem main_report_counterexample :
    mainRun wBad =
      .ok (1, [msgHeader, '-' :: ' ' :: "f.py:1: д".data, msgFooter]) ∧
    ('-' :: ' ' :: "f.py:1: д".data) ≠ "f.py:1: д".data :=
  ⟨rfl, by decide⟩

/-- C6 (amended): with at least one violation, the run prints the
header line, then exactly one line per violation consisting of `- `
followed by `<path>:<line number>: <preview>`, in violation order, then
the closing instructional line, and exits 1. -/
theorem main_report_spec (w : World) (changed : List (List Char))
    (h : changedFilesOf w = .ok changed)
    (hv : allViolations w changed ≠ []) :
    mainRun w = .ok (1, msgHeader ::
      (allViolations w changed).map (fun s => '-' :: ' ' :: s) ++
        [msgFooter]) ∧
    processExitCode w = 1 := by
  have hne : changed ≠ [] := by
    intro hnil
    subst hnil
    exact hv (allViolations_nil w)
  have hm := mainRun_ok w changed h
  rw [isEmpty_false_of_ne hne, isEmpty_false_of_ne hv] at hm
  simp only [Bool.false_eq_true, if_false] at hm
  refine ⟨hm, ?_⟩
  unfold processExitCode
  rw [hm]

theorem main_report_spec_witness :
    mainRun wBad = .ok (1, msgHeader ::
      (allViolations wBad ["f.py".data]).map (fun s => '-' :: ' ' :: s) ++
        [msgFooter]) ∧
    processExitCode wBad = 1 :=
  main_report_spec wBad ["f.py".data] rfl (by decide)

/-- C7: a file whose open/read raises `OSError` contributes an empty
violation sequence instead of an error, and the other changed files are
still scanned: dropping the unreadable file from the aggregate leaves
the violations of the files before and after it untouched. -/
theorem scan_file_unreadable_spec (w : World) (p : List Char)
    (l1 l2 : List (List Char)) (h : w.readFile p = none) :
    scan_file p (w.readFile p) = [] ∧
    allViolations w (l1 ++ p :: l2) =
      allViolations w l1 ++ allViolations w l2 := by
  constructor
  · rw [h]
    rfl
  · unfold allViolations
    rw [List.flatMap_append, List.flatMap_cons]
    simp [h, scan_file]

theorem scan_file_unreadable_spec_witness :
    scan_file pathA (wUnreadable.readFile pathA) = [] ∧
    allViolations wUnreadable ([] ++ pathA :: [pathB]) =
      allViolations wUnreadable [] ++ allViolations wUnreadable [pathB] :=
  scan_file_unreadable_spec wUnreadable pathA [] [pathB] (by decide)

/-- C8: a non-zero exit of the git invocation propagates unhandled out
of `run_git_command` and `list_changed_files`, aborts `main`, and the
process terminates with a non-zero exit status; no recovery happens. -/
theorem git_failure_spec (fs : FileSystem) (e : GitError) (w : World)
    (h : w.git (resolve_diff_range w.env) = .error e) :
    run_git_command (.error e) = .error e ∧
    list_changed_files fs (.error e) = .error e ∧
    mainRun w = .error e ∧ processExitCode w ≠ 0 := by
  have hcf : changedFilesOf w = .error e := by
    unfold changedFilesOf
    rw [h]
    rfl
  have hm := mainRun_error w e hcf
  refine ⟨rfl, rfl, hm, ?_⟩
  unfold processExitCode
  rw [hm]
  exact Nat.one_ne_zero

theorem git_failure_spec_witness :
    mainRun wGitFail = .error ⟨128⟩ ∧ processExitCode wGitFail ≠ 0 :=
  ⟨(git_failure_spec wGitFail.fs ⟨128⟩ wGitFail rfl).2.2.1,
   (git_failure_spec wGitFail.fs ⟨128⟩ wGitFail rfl).2.2.2⟩

end CheckNoCyrillic
